import Mathlib

/-!
Shallow embedding of `src/battleship_backend/server.py` (battleship_simple).

Conventions of the embedding:
* Python `Tuple[int, int]` coordinates become `Int × Int`.
* Python `set` becomes `Finset`; Python `dict` payloads become structures.
* Python strings used as enums ("hit"/"miss"/"repeat", "setup"/"play"/"over",
  "player"/"cpu") stay `String`, exactly as in the source.
* Randomness (`random.choice`, `random.randrange`) is made explicit: each
  call site consumes one element of a draw list; `random.randrange(n)` of a
  drawn natural `a` is modelled as `a % n`, which has exactly the range of
  `randrange`.
* Wall-clock time is made explicit: `int(time.time() - start_time)` is passed
  in as an `elapsed : Int` parameter.
* Mutation of the Python objects becomes explicit state passing: functions
  return the updated fleets / shot histories / `GameState`.
-/

namespace Battleship

abbrev Coord := Int × Int

/-- `BOARD_N = 10` (server.py line 18). -/
def BOARD_N : Int := 10

/-- `SHIP_SIZES = [2, 3, 5]` (server.py line 19): the list handed to the
random generator by `new_game`. -/
def SHIP_SIZES : List Nat := [2, 3, 5]

/-- `SETUP_ORDER = [5, 3, 2]` (server.py line 21): the player's setup
placement order. -/
def SETUP_ORDER : List Nat := [5, 3, 2]

/-- `in_bounds(r, c)` (server.py lines 97-98). -/
def in_bounds (r c : Int) : Bool :=
  0 ≤ r && r < BOARD_N && 0 ≤ c && c < BOARD_N

/-- The eight (dr, dc) offsets enumerated by the nested loops of
`neighbors8`, with `(0, 0)` skipped (server.py lines 104-107). -/
def deltas : List (Int × Int) :=
  [(-1, -1), (-1, 0), (-1, 1), (0, -1), (0, 1), (1, -1), (1, 0), (1, 1)]

/-- `neighbors8(cell)` (server.py lines 101-111): the in-bounds cells at
Chebyshev distance 1. -/
def neighbors8 (cell : Coord) : List Coord :=
  (deltas.map (fun d => (cell.1 + d.1, cell.2 + d.2))).filter
    (fun p => in_bounds p.1 p.2)

/-- `ring_around(ship_cells)` (server.py lines 114-120): in-bounds neighbors
of ship cells that are not themselves ship cells. -/
def ring_around (ship_cells : Finset Coord) : Finset Coord :=
  ship_cells.biUnion
    (fun cell => (neighbors8 cell).toFinset.filter (fun nb => nb ∉ ship_cells))

/-- `Ship` dataclass (server.py lines 123-126). -/
structure Ship where
  cells : Finset Coord
  hits : Finset Coord
deriving DecidableEq

/-- `Ship.sunk` property (server.py lines 128-130): `cells == hits`. -/
def Ship.sunk (s : Ship) : Bool :=
  decide (s.cells = s.hits)

/-- `all_sunk(ships)` (server.py lines 217-218). -/
def all_sunk (ships : List Ship) : Bool :=
  ships.all Ship.sunk

/-- The return value of `apply_shot` together with the state it mutates:
the Python function returns `{"result", "ring_marks"}` and mutates the
fleet's hit sets and the `fired` set in place. -/
structure ShotOutcome where
  result : String
  ring_marks : Finset Coord
  ships : List Ship
  fired : Finset Coord
deriving DecidableEq

/-- The in-place update of `apply_shot` on the fleet list (server.py lines
227-240): find the first ship containing `cell`, add the hit to it, and if
that ship is now sunk compute the ring marks filtered by `fired` (which at
that point already contains `cell`).  Returns `none` when no ship holds
`cell`. -/
def hitFirst (cell : Coord) (fired : Finset Coord) :
    List Ship → Option (List Ship × Finset Coord)
  | [] => none
  | s :: rest =>
      if cell ∈ s.cells then
        let s' : Ship := ⟨s.cells, insert cell s.hits⟩
        let marks :=
          if s'.sunk then (ring_around s'.cells).filter (fun p => p ∉ fired)
          else ∅
        some (s' :: rest, marks)
      else
        match hitFirst cell fired rest with
        | none => none
        | some (rest', marks) => some (s :: rest', marks)

/-- `apply_shot(ships, fired, cell)` (server.py lines 221-242). -/
def apply_shot (ships : List Ship) (fired : Finset Coord) (cell : Coord) :
    ShotOutcome :=
  if cell ∈ fired then
    ⟨"repeat", ∅, ships, fired⟩
  else
    let fired' := insert cell fired
    match hitFirst cell fired' ships with
    | none => ⟨"miss", ∅, ships, fired'⟩
    | some (ships', marks) => ⟨"hit", marks, ships', fired'⟩

/-- `pick_cpu_shot` (server.py lines 245-250): repeatedly draw
`(randrange(10), randrange(10))` until a coordinate not yet fired is found.
The unbounded `while True` loop is modelled by consuming an explicit list of
draws; `none` means the supplied randomness ran out before an unfired cell
was drawn. -/
def pick_cpu_shot (fired : Finset Coord) : List (Nat × Nat) → Option Coord
  | [] => none
  | (a, b) :: ds =>
      let p : Coord := (((a % 10 : Nat) : Int), ((b % 10 : Nat) : Int))
      if p ∈ fired then pick_cpu_shot fired ds else some p

/-- One random draw of the generator's inner loop: `random.choice([True,
False])` for the orientation and the two `randrange` arguments. -/
abbrev PlaceDraw := Bool × Nat × Nat

/-- The candidate cells built from one draw (server.py lines 186-194):
horizontal uses `r = randrange(10)`, `c = randrange(BOARD_N - size + 1)` and
cells `(r, c+i)`; vertical is transposed. -/
def candidate_cells (size : Nat) : PlaceDraw → List Coord
  | (true, rd, cd) =>
      (List.range size).map (fun (i : Nat) =>
        (((rd % 10 : Nat) : Int),
          ((cd % (10 - size + 1) : Nat) : Int) + (i : Int)))
  | (false, rd, cd) =>
      (List.range size).map (fun (i : Nat) =>
        (((rd % (10 - size + 1) : Nat) : Int) + (i : Int),
          ((cd % 10 : Nat) : Int)))

/-- The generator's local `can_place(cells)` (server.py lines 174-181): no
candidate cell is occupied and no in-bounds neighbor of a candidate cell is
occupied.  (Bounds of the candidate itself are not checked here; they hold
by construction of the draw.) -/
def can_place (occupied : Finset Coord) (cells : List Coord) : Bool :=
  cells.all (fun p =>
    !(decide (p ∈ occupied)) &&
    (neighbors8 p).all (fun nb => !(decide (nb ∈ occupied))))

/-- The bounded retry loop for one ship size (server.py lines 184-201):
up to 4000 attempts, each consuming one draw; the first draw whose candidate
passes `can_place` is accepted.  Returns the accepted cells and the
remaining draws, or `none` on budget/randomness exhaustion (the Python
`raise RuntimeError` path). -/
def try_place (occupied : Finset Coord) (size : Nat) :
    Nat → List PlaceDraw → Option (List Coord × List PlaceDraw)
  | 0, _ => none
  | _, [] => none
  | fuel + 1, d :: ds =>
      let cells := candidate_cells size d
      if can_place occupied cells then some (cells, ds)
      else try_place occupied size fuel ds

/-- The outer loop of `random_place_ships_no_adjacent` (server.py lines
183-206), with the accumulated `occupied` set and `ships` list explicit. -/
def place_loop :
    List Nat → Finset Coord → List Ship → List PlaceDraw → Option (List Ship)
  | [], _, ships, _ => some ships
  | size :: rest, occupied, ships, ds =>
      match try_place occupied size 4000 ds with
      | none => none
      | some (cells, ds') =>
          place_loop rest (occupied ∪ cells.toFinset)
            (ships ++ [⟨cells.toFinset, ∅⟩]) ds'

/-- `random_place_ships_no_adjacent(sizes)` (server.py lines 170-206). -/
def random_place_ships_no_adjacent (sizes : List Nat) (ds : List PlaceDraw) :
    Option (List Ship) :=
  place_loop sizes ∅ [] ds

/-- `GameState` dataclass (server.py lines 133-164).  `game_id` is omitted
(it only keys the process-wide map); `start_time` is represented by the
`elapsed` parameters of `fire`. -/
structure GameState where
  phase : String
  player_ships : List Ship
  cpu_ships : List Ship
  player_fired : Finset Coord
  cpu_fired : Finset Coord
  player_hits : Nat
  player_misses : Nat
  cpu_hits : Nat
  cpu_misses : Nat
  setup_index : Nat
  stats_recorded : Bool
deriving DecidableEq

/-- `GameState.over` property (server.py lines 162-164). -/
def GameState.over (g : GameState) : Bool :=
  decide (g.phase = "over")

/-- `can_place_player_ship(game, cells)` (server.py lines 253-269):
bounds + overlap + adjacency against the player's current occupied cells. -/
def can_place_player_ship (player_ships : List Ship) (cells : List Coord) :
    Bool :=
  let occupied := player_ships.foldl (fun acc s => acc ∪ s.cells) ∅
  cells.all (fun p =>
    in_bounds p.1 p.2 &&
    !(decide (p ∈ occupied)) &&
    (neighbors8 p).all (fun nb => !(decide (nb ∈ occupied))))

/-- The JSON body returned by the `/fire` endpoint, shaped after the three
`jsonify` payload families of `fire` (server.py lines 387-517).
`overReply` mirrors the `game_over` early-return payload of lines 410-419;
`reply` mirrors the turn payloads (`cpu_shot = none` when the CPU did not
fire). -/
inductive FireResponse where
  | error (msg : String)
  | overReply (winner : String) (elapsed : Int) (ph pm ch cm : Nat)
  | reply (player_result : String) (player_ring_marks : Finset Coord)
      (cpu_shot : Option (Coord × String)) (cpu_ring_marks : Finset Coord)
      (game_over : Bool) (winner : Option String) (elapsed : Int)
      (ph pm ch cm : Nat)
deriving DecidableEq

/-- Result of one `fire` call: the response, the mutated session state, and
the `record_game_result` invocation (winner, elapsed) if finalization ran
during this call. -/
structure FireResult where
  response : FireResponse
  state : GameState
  recorded : Option (String × Int)
deriving DecidableEq

/-- `fire` (server.py lines 387-517), from the phase guard onward (session
lookup and JSON-shape checks on `row`/`col` belong to the excluded
transport).  `draws` feeds `pick_cpu_shot`; `elapsed` stands for
`int(time.time() - game.start_time)`.  Returns `none` only when
`pick_cpu_shot` exhausts its supplied randomness. -/
def fire (g : GameState) (row col : Int) (draws : List (Nat × Nat))
    (elapsed : Int) : Option FireResult :=
  if g.phase ≠ "play" then
    some ⟨.error "Game is not in play phase", g, none⟩
  else if g.over then
    let winner := if all_sunk g.cpu_ships then "player" else "cpu"
    let recEvent := if g.stats_recorded then none else some (winner, elapsed)
    some ⟨.overReply winner elapsed g.player_hits g.player_misses g.cpu_hits
            g.cpu_misses,
          { g with stats_recorded := true }, recEvent⟩
  else if ¬ in_bounds row col then
    some ⟨.error "Invalid coordinates", g, none⟩
  else
    let pc : Coord := (row, col)
    let ps := apply_shot g.cpu_ships g.player_fired pc
    let g1 : GameState :=
      { g with
        cpu_ships := ps.ships
        player_fired := ps.fired
        player_hits :=
          if ps.result = "hit" then g.player_hits + 1 else g.player_hits
        player_misses :=
          if ps.result = "miss" then g.player_misses + 1 else g.player_misses }
    if ps.result = "repeat" then
      some ⟨.reply "repeat" ∅ none ∅ false none elapsed g1.player_hits
              g1.player_misses g1.cpu_hits g1.cpu_misses,
            g1, none⟩
    else if all_sunk g1.cpu_ships then
      let recEvent :=
        if g1.stats_recorded then none else some ("player", elapsed)
      let g2 : GameState := { g1 with phase := "over", stats_recorded := true }
      some ⟨.reply ps.result ps.ring_marks none ∅ true (some "player") elapsed
              g2.player_hits g2.player_misses g2.cpu_hits g2.cpu_misses,
            g2, recEvent⟩
    else
      match pick_cpu_shot g1.cpu_fired draws with
      | none => none
      | some cc =>
          let cs := apply_shot g1.player_ships g1.cpu_fired cc
          let g2 : GameState :=
            { g1 with
              player_ships := cs.ships
              cpu_fired := cs.fired
              cpu_hits :=
                if cs.result = "hit" then g1.cpu_hits + 1 else g1.cpu_hits
              cpu_misses :=
                if cs.result = "miss" then g1.cpu_misses + 1
                else g1.cpu_misses }
          if all_sunk g2.player_ships then
            let recEvent :=
              if g2.stats_recorded then none else some ("cpu", elapsed)
            let g3 : GameState :=
              { g2 with phase := "over", stats_recorded := true }
            some ⟨.reply ps.result ps.ring_marks (some (cc, cs.result))
                    cs.ring_marks true (some "cpu") elapsed g3.player_hits
                    g3.player_misses g3.cpu_hits g3.cpu_misses,
                  g3, recEvent⟩
          else
            some ⟨.reply ps.result ps.ring_marks (some (cc, cs.result))
                    cs.ring_marks false none elapsed g2.player_hits
                    g2.player_misses g2.cpu_hits g2.cpu_misses,
                  g2, none⟩

/-- The well-typed scoreboard record (server.py `default_scoreboard`, lines
30-40, under the types its fields are documented to carry: counters are
ints, `fastest_win_seconds` is int-or-None). -/
structure Scoreboard where
  games_played : Int
  wins : Int
  losses : Int
  player_hits : Int
  player_misses : Int
  cpu_hits : Int
  cpu_misses : Int
  fastest_win_seconds : Option Int
deriving DecidableEq

/-- `default_scoreboard()` (server.py lines 30-40) as a typed record. -/
def default_scoreboard : Scoreboard :=
  ⟨0, 0, 0, 0, 0, 0, 0, none⟩

/-- The read-modify-write body of `record_game_result` (server.py lines
68-94), with the loaded scoreboard passed in and the updated one returned
(`load_scoreboard`/`save_scoreboard` and the lock are the surrounding I/O).
`elapsed_seconds : Int` makes the Python `isinstance(elapsed_seconds, int)`
guard always true, so only `elapsed_seconds >= 0` remains of it. -/
def record_game_result (winner : String) (elapsed_seconds : Int)
    (game : GameState) (sb : Scoreboard) : Scoreboard :=
  let sb1 := { sb with games_played := sb.games_played + 1 }
  let sb2 :=
    if winner = "player" then
      let sbw := { sb1 with wins := sb1.wins + 1 }
      if 0 ≤ elapsed_seconds then
        match sbw.fastest_win_seconds with
        | none => { sbw with fastest_win_seconds := some elapsed_seconds }
        | some cur =>
            if elapsed_seconds < cur then
              { sbw with fastest_win_seconds := some elapsed_seconds }
            else sbw
      else sbw
    else { sb1 with losses := sb1.losses + 1 }
  { sb2 with
    player_hits := sb2.player_hits + game.player_hits
    player_misses := sb2.player_misses + game.player_misses
    cpu_hits := sb2.cpu_hits + game.cpu_hits
    cpu_misses := sb2.cpu_misses + game.cpu_misses }

/-- Classification of a JSON value as far as `load_scoreboard` inspects it:
`null`, a Python int (`isinstance(v, int)` holds), or anything else
(string, float, list, object, ...). -/
inductive JVal where
  | jnull
  | jint (n : Int)
  | jother
deriving DecidableEq

/-- The eight keys of `default_scoreboard()` (server.py lines 30-40), the
only keys the merge loop of `load_scoreboard` reads. -/
inductive SBField where
  | games_played
  | wins
  | losses
  | player_hits
  | player_misses
  | cpu_hits
  | cpu_misses
  | fastest_win_seconds
deriving DecidableEq

/-- `default_scoreboard()` viewed as the JSON record the merge starts
from: every counter is `0`, `fastest_win_seconds` is `null`. -/
def default_scoreboard_json : SBField → JVal
  | .fastest_win_seconds => .jnull
  | _ => .jint 0

/-- The state of the durable scoreboard file as `load_scoreboard` observes
it: absent (`os.path.exists` false), raising inside the `try` block
(unparseable JSON, or a parsed value the merge loop cannot index), or a
parsed JSON object, recorded per schema key as present-with-value or
absent. -/
inductive FileState where
  | missing
  | unparseable
  | parsed (data : SBField → Option JVal)

/-- `load_scoreboard()` (server.py lines 42-59): defaults when the file is
missing or unreadable; otherwise merge present keys over the defaults and
reset a non-null non-int `fastest_win_seconds` to `None`. -/
def load_scoreboard : FileState → SBField → JVal
  | .missing => default_scoreboard_json
  | .unparseable => default_scoreboard_json
  | .parsed data => fun f =>
      let merged := fun k => (data k).getD (default_scoreboard_json k)
      if f = .fastest_win_seconds then
        match merged f with
        | .jnull => .jnull
        | .jint n => .jint n
        | .jother => .jnull
      else merged f

/-! ### Derived invariant predicates -/

/-- Two ships neither share a cell nor have 8-adjacent cells. -/
def ship_apart (s t : Ship) : Prop :=
  ∀ a ∈ s.cells, ∀ b ∈ t.cells, a ≠ b ∧ a ∉ neighbors8 b ∧ b ∉ neighbors8 a

instance : DecidableRel ship_apart := fun s t => by
  unfold ship_apart; infer_instance

/-- The fleet invariant of spec §3/§8: every ship cell in bounds, and any
two distinct ships disjoint and non-adjacent (including diagonally). -/
def fleet_ok (ships : List Ship) : Prop :=
  (∀ s ∈ ships, ∀ p ∈ s.cells, in_bounds p.1 p.2 = true) ∧
  List.Pairwise ship_apart ships

instance (ships : List Ship) : Decidable (fleet_ok ships) := by
  unfold fleet_ok; infer_instance

/-- The full 10×10 board as a finite set of coordinates. -/
def board_cells : Finset Coord :=
  (Finset.Icc (0 : Int) 9) ×ˢ (Finset.Icc (0 : Int) 9)

/-! ### Board-geometry lemmas -/

theorem in_bounds_iff {r c : Int} :
    in_bounds r c = true ↔ 0 ≤ r ∧ r < 10 ∧ 0 ≤ c ∧ c < 10 := by
  simp only [in_bounds, BOARD_N, Bool.and_eq_true, decide_eq_true_eq]
  tauto

theorem mem_board_cells {p : Coord} :
    p ∈ board_cells ↔ in_bounds p.1 p.2 = true := by
  simp only [board_cells, Finset.mem_product, Finset.mem_Icc, in_bounds_iff]
  omega

theorem mem_neighbors8 {p q : Coord} :
    p ∈ neighbors8 q ↔
      in_bounds p.1 p.2 = true ∧ p ≠ q ∧
        (p.1 - q.1).natAbs ≤ 1 ∧ (p.2 - q.2).natAbs ≤ 1 := by
  obtain ⟨a, b⟩ := p
  obtain ⟨x, y⟩ := q
  simp only [neighbors8, deltas, List.mem_filter, List.mem_map, List.mem_cons,
    List.not_mem_nil, or_false, Prod.mk.injEq, ne_eq, in_bounds_iff]
  constructor
  · rintro ⟨⟨d, hd, hab⟩, hb⟩
    refine ⟨hb, ?_, ?_, ?_⟩ <;>
      rcases hd with rfl | rfl | rfl | rfl | rfl | rfl | rfl | rfl <;>
        simp_all <;> omega
  · rintro ⟨hb, hne, h1, h2⟩
    refine ⟨⟨(a - x, b - y), ?_, by simp⟩, hb⟩
    simp only [Prod.mk.injEq]
    omega

/-- Adjacency is symmetric across in-bounds cells. -/
theorem neighbors8_swap {a b : Coord} (hb : in_bounds b.1 b.2 = true)
    (h : a ∈ neighbors8 b) : b ∈ neighbors8 a := by
  rw [mem_neighbors8] at h ⊢
  obtain ⟨_, hne, h1, h2⟩ := h
  exact ⟨hb, fun e => hne e.symm, by omega, by omega⟩

theorem mem_ring_around {p : Coord} {cs : Finset Coord} :
    p ∈ ring_around cs ↔ p ∉ cs ∧ ∃ a ∈ cs, p ∈ neighbors8 a := by
  simp only [ring_around, Finset.mem_biUnion, Finset.mem_filter,
    List.mem_toFinset]
  tauto

/-! ### Shot-resolution lemmas -/

theorem apply_shot_of_mem {ships : List Ship} {fired : Finset Coord}
    {cell : Coord} (h : cell ∈ fired) :
    apply_shot ships fired cell = ⟨"repeat", ∅, ships, fired⟩ := by
  simp [apply_shot, h]

theorem hitFirst_pointwise {cell : Coord} {f : Finset Coord} :
    ∀ {ships ships' : List Ship} {marks : Finset Coord},
      hitFirst cell f ships = some (ships', marks) →
      ships'.length = ships.length ∧
      ∀ i (h1 : i < ships.length) (h2 : i < ships'.length),
        ships'.get ⟨i, h2⟩ = ships.get ⟨i, h1⟩ ∨
          (cell ∈ (ships.get ⟨i, h1⟩).cells ∧
            ships'.get ⟨i, h2⟩ =
              ⟨(ships.get ⟨i, h1⟩).cells,
                insert cell (ships.get ⟨i, h1⟩).hits⟩)
  | [], _, _, h => by simp [hitFirst] at h
  | s :: rest, ships', marks, h => by
      by_cases hc : cell ∈ s.cells
      · simp only [hitFirst, if_pos hc, Option.some.injEq, Prod.mk.injEq] at h
        obtain ⟨hs, -⟩ := h
        subst hs
        refine ⟨by simp, ?_⟩
        intro i h1 h2
        match i with
        | 0 => exact Or.inr ⟨hc, rfl⟩
        | i + 1 => exact Or.inl rfl
      · cases hrec : hitFirst cell f rest with
        | none => simp [hitFirst, if_neg hc, hrec] at h
        | some pr =>
            obtain ⟨rest', marks'⟩ := pr
            simp only [hitFirst, if_neg hc, hrec, Option.some.injEq,
              Prod.mk.injEq] at h
            obtain ⟨hs, -⟩ := h
            subst hs
            obtain ⟨hlen, hpt⟩ := hitFirst_pointwise hrec
            refine ⟨by simp [hlen], ?_⟩
            intro i hi1 hi2
            match i with
            | 0 => exact Or.inl rfl
            | i + 1 =>
                exact hpt i (by simpa using hi1) (by simpa using hi2)

theorem hitFirst_of_mem {cell : Coord} {f : Finset Coord} :
    ∀ {ships : List Ship} {s : Ship},
      List.Pairwise (fun u t => ∀ a ∈ u.cells, a ∉ t.cells) ships →
      s ∈ ships → cell ∈ s.cells →
      ∃ ships',
        hitFirst cell f ships =
          some (ships',
            if Ship.sunk ⟨s.cells, insert cell s.hits⟩ then
              (ring_around s.cells).filter (fun p => p ∉ f)
            else ∅)
  | [], s, _, hs, _ => absurd hs (by simp)
  | t :: rest, s, hpw, hs, hc => by
      by_cases hct : cell ∈ t.cells
      · have hts : t = s := by
          rcases List.mem_cons.mp hs with h | hmem
          · exact h.symm
          · exact absurd hc ((List.pairwise_cons.mp hpw).1 s hmem cell hct)
        subst hts
        exact ⟨⟨t.cells, insert cell t.hits⟩ :: rest, by simp [hitFirst, hct]⟩
      · have hmem : s ∈ rest := by
          rcases List.mem_cons.mp hs with h | hmem
          · exact absurd (h ▸ hc) hct
          · exact hmem
        obtain ⟨ships', hrec⟩ :=
          hitFirst_of_mem (f := f) (List.pairwise_cons.mp hpw).2 hmem hc
        exact ⟨t :: ships', by simp [hitFirst, hct, hrec]⟩

theorem apply_shot_of_not_mem {ships : List Ship} {fired : Finset Coord}
    {cell : Coord} (h : cell ∉ fired) :
    (apply_shot ships fired cell).fired = insert cell fired ∧
    ((apply_shot ships fired cell).result = "hit" ∨
      (apply_shot ships fired cell).result = "miss") := by
  unfold apply_shot
  rw [if_neg h]
  cases hh : hitFirst cell (insert cell fired) ships with
  | none => simp [hh]
  | some pr => obtain ⟨a, b⟩ := pr; simp [hh]

/-! ### Claim theorems -/

/-- C1: the claim says a `fire` call on a session whose phase is `over`
succeeds and returns the stored outcome, lazily finalizing the scoreboard.
The code instead rejects any such call up front: the `phase != "play"`
guard (line 399) fires before the `game.over` branch (lines 402-419) can,
since `over` implies `phase != "play"`; the call returns the error reply,
the state is untouched, and no finalization ever runs on this path. -/
theorem fire_in_over_phase_is_rejected (g : GameState) (row col : Int)
    (draws : List (Nat × Nat)) (elapsed : Int) (h : g.phase = "over") :
    fire g row col draws elapsed =
      some ⟨.error "Game is not in play phase", g, none⟩ := by
  have hne : g.phase ≠ "play" := by rw [h]; decide
  simp [fire, hne]

/-- Witness for `fire_in_over_phase_is_rejected`: an `over` session with
`stats_recorded = false`; the fire call errors and does not finalize. -/
theorem fire_in_over_phase_is_rejected_witness :
    fire ⟨"over", [], [], ∅, ∅, 0, 0, 0, 0, 3, false⟩ 0 0 [] 0 =
      some ⟨.error "Game is not in play phase",
            ⟨"over", [], [], ∅, ∅, 0, 0, 0, 0, 3, false⟩, none⟩ :=
  fire_in_over_phase_is_rejected _ 0 0 [] 0 rfl

/-- C2: a shot at a cell already in the shot history returns `repeat` with
no reveal and mutates nothing, and a `fire` whose player shot is a repeat
updates neither counter, gives the CPU no shot, and leaves the session
state unchanged. -/
theorem repeat_shot_is_noop :
    (∀ (ships : List Ship) (fired : Finset Coord) (cell : Coord),
        cell ∈ fired →
        apply_shot ships fired cell = ⟨"repeat", ∅, ships, fired⟩) ∧
    (∀ (g : GameState) (row col : Int) (draws : List (Nat × Nat))
        (elapsed : Int), g.phase = "play" → in_bounds row col = true →
        ((row, col) : Coord) ∈ g.player_fired →
        fire g row col draws elapsed =
          some ⟨.reply "repeat" ∅ none ∅ false none elapsed g.player_hits
                  g.player_misses g.cpu_hits g.cpu_misses, g, none⟩) := by
  refine ⟨fun ships fired cell h => apply_shot_of_mem h, ?_⟩
  intro g row col draws elapsed hp hb hrep
  have h2 : g.over = false := by simp [GameState.over, hp]
  simp [fire, hp, h2, hb, apply_shot_of_mem hrep]
  rw [← hp]

/-- Witness for `repeat_shot_is_noop` at a concrete session. -/
theorem repeat_shot_is_noop_witness :
    (apply_shot [⟨{((0 : Int), (0 : Int))}, ∅⟩] {((0 : Int), (0 : Int))}
        ((0 : Int), (0 : Int)) =
      ⟨"repeat", ∅, [⟨{((0 : Int), (0 : Int))}, ∅⟩],
        {((0 : Int), (0 : Int))}⟩) ∧
    (fire ⟨"play", [⟨{((5 : Int), (5 : Int))}, ∅⟩],
            [⟨{((0 : Int), (0 : Int))}, ∅⟩], {((0 : Int), (0 : Int))}, ∅,
            0, 1, 0, 0, 3, false⟩ 0 0 [(3, 3)] 9 =
      some ⟨.reply "repeat" ∅ none ∅ false none 9 0 1 0 0,
            ⟨"play", [⟨{((5 : Int), (5 : Int))}, ∅⟩],
              [⟨{((0 : Int), (0 : Int))}, ∅⟩], {((0 : Int), (0 : Int))}, ∅,
              0, 1, 0, 0, 3, false⟩, none⟩) :=
  ⟨repeat_shot_is_noop.1 _ _ _ (by decide),
    repeat_shot_is_noop.2 _ 0 0 [(3, 3)] 9 rfl (by decide) (by decide)⟩

/-- C9: `apply_shot` never shrinks the shot history; it grows it by exactly
the target cell on a non-repeat outcome and not at all on a repeat; ship
cells are never changed, hit sets grow monotonically and stay subsets of
their ship's cells. -/
theorem apply_shot_monotonic (ships : List Ship) (fired : Finset Coord)
    (cell : Coord) (hsub : ∀ s ∈ ships, s.hits ⊆ s.cells) :
    fired ⊆ (apply_shot ships fired cell).fired ∧
    ((apply_shot ships fired cell).result = "repeat" →
      (apply_shot ships fired cell).fired = fired ∧
      (apply_shot ships fired cell).ships = ships) ∧
    ((apply_shot ships fired cell).result ≠ "repeat" →
      cell ∉ fired ∧
      (apply_shot ships fired cell).fired = insert cell fired ∧
      (apply_shot ships fired cell).fired.card = fired.card + 1) ∧
    (apply_shot ships fired cell).ships.length = ships.length ∧
    ∀ i (h1 : i < ships.length)
        (h2 : i < (apply_shot ships fired cell).ships.length),
      ((apply_shot ships fired cell).ships.get ⟨i, h2⟩).cells =
          (ships.get ⟨i, h1⟩).cells ∧
      (ships.get ⟨i, h1⟩).hits ⊆
          ((apply_shot ships fired cell).ships.get ⟨i, h2⟩).hits ∧
      ((apply_shot ships fired cell).ships.get ⟨i, h2⟩).hits ⊆
          ((apply_shot ships fired cell).ships.get ⟨i, h2⟩).cells := by
  by_cases hmem : cell ∈ fired
  · rw [apply_shot_of_mem hmem]
    refine ⟨Finset.Subset.refl _, fun _ => ⟨rfl, rfl⟩, ?_, rfl, ?_⟩
    · intro hne; exact absurd rfl hne
    · intro i h1 h2
      exact ⟨rfl, Finset.Subset.refl _, hsub _ (List.get_mem ships i h2)⟩
  · cases hh : hitFirst cell (insert cell fired) ships with
    | none =>
        have ha : apply_shot ships fired cell =
            ⟨"miss", ∅, ships, insert cell fired⟩ := by
          simp only [apply_shot, if_neg hmem, hh]
        rw [ha]
        refine ⟨Finset.subset_insert _ _, ?_, ?_, rfl, ?_⟩
        · intro hr; simp at hr
        · intro _; exact ⟨hmem, rfl, Finset.card_insert_of_not_mem hmem⟩
        · intro i h1 h2
          exact ⟨rfl, Finset.Subset.refl _, hsub _ (List.get_mem ships i h2)⟩
    | some pr =>
        obtain ⟨ships', marks⟩ := pr
        have ha : apply_shot ships fired cell =
            ⟨"hit", marks, ships', insert cell fired⟩ := by
          simp only [apply_shot, if_neg hmem, hh]
        obtain ⟨hlen, hpt⟩ := hitFirst_pointwise hh
        rw [ha]
        refine ⟨Finset.subset_insert _ _, ?_, ?_, hlen, ?_⟩
        · intro hr; simp at hr
        · intro _; exact ⟨hmem, rfl, Finset.card_insert_of_not_mem hmem⟩
        · intro i h1 h2
          rcases hpt i h1 h2 with heq | ⟨hc, heq⟩
          · rw [heq]
            exact ⟨rfl, Finset.Subset.refl _, hsub _ (List.get_mem ships i h1)⟩
          · rw [heq]
            exact ⟨rfl, Finset.subset_insert _ _,
              Finset.insert_subset_iff.mpr
                ⟨hc, hsub _ (List.get_mem ships i h1)⟩⟩

/-- C7: one `record_game_result` increments `games_played` by exactly 1 and
exactly one of `wins` (winner is the player) or `losses` (anyone else) by
exactly 1, never both; `fastest_win_seconds` changes only on a player win,
and then only from `none` to the elapsed time or from its current value to
a strictly smaller elapsed time. -/
theorem record_game_result_props (winner : String) (elapsed_seconds : Int)
    (game : GameState) (sb : Scoreboard) :
    (record_game_result winner elapsed_seconds game sb).games_played =
        sb.games_played + 1 ∧
    (if winner = "player" then
        (record_game_result winner elapsed_seconds game sb).wins =
            sb.wins + 1 ∧
        (record_game_result winner elapsed_seconds game sb).losses = sb.losses
      else
        (record_game_result winner elapsed_seconds game sb).wins = sb.wins ∧
        (record_game_result winner elapsed_seconds game sb).losses =
            sb.losses + 1) ∧
    ((record_game_result winner elapsed_seconds game sb).fastest_win_seconds =
        sb.fastest_win_seconds ∨
      (winner = "player" ∧
        (record_game_result winner elapsed_seconds game sb).fastest_win_seconds
            = some elapsed_seconds ∧
        (sb.fastest_win_seconds = none ∨
          ∃ cur, sb.fastest_win_seconds = some cur ∧
            elapsed_seconds < cur))) := by
  unfold record_game_result
  by_cases hw : winner = "player"
  · by_cases he : (0 : Int) ≤ elapsed_seconds
    · cases hfast : sb.fastest_win_seconds with
      | none =>
          refine ⟨by simp [hw, he], by simp [hw, he], Or.inr ?_⟩
          exact ⟨hw, by simp [hw, he], Or.inl rfl⟩
      | some cur =>
          by_cases hlt : elapsed_seconds < cur
          · refine ⟨by simp [hw, he, hlt], by simp [hw, he, hlt], Or.inr ?_⟩
            exact ⟨hw, by simp [hw, he, hlt], Or.inr ⟨cur, rfl, hlt⟩⟩
          · exact ⟨by simp [hw, he, hlt], by simp [hw, he, hlt],
              Or.inl (by simp [hw, he, hlt])⟩
    · exact ⟨by simp [hw, he], by simp [hw, he],
        Or.inl (by simp [hw, he])⟩
  · exact ⟨by simp [hw], by simp [hw], Or.inl (by simp [hw])⟩

theorem ship_apart_symm : Symmetric ship_apart := by
  intro u t h b hb a ha
  obtain ⟨hne, h1, h2⟩ := h a ha b hb
  exact ⟨fun e => hne e.symm, h2, h1⟩

/-- C3: a ship is sunk iff every one of its cells is hit; when a fresh shot
sinks ship `s`, the reveal cells are exactly `ring_around s.cells` minus
everything already in the (updated) shot history, the shot history gains
only the shot itself, and no reveal cell lies on any ship of a fleet
satisfying the no-overlap/no-adjacency invariant. -/
theorem sinking_reveal_spec (ships : List Ship) (fired : Finset Coord)
    (cell : Coord) (s : Ship) (hok : fleet_ok ships)
    (hsub : ∀ t ∈ ships, t.hits ⊆ t.cells) (hnew : cell ∉ fired)
    (hs : s ∈ ships) (hc : cell ∈ s.cells)
    (hsunk : s.cells ⊆ insert cell s.hits) :
    (∀ t : Ship, t.hits ⊆ t.cells → (t.sunk = true ↔ t.cells ⊆ t.hits)) ∧
    (apply_shot ships fired cell).result = "hit" ∧
    (apply_shot ships fired cell).ring_marks =
      (ring_around s.cells).filter (fun p => p ∉ insert cell fired) ∧
    (apply_shot ships fired cell).fired = insert cell fired ∧
    ∀ p ∈ (apply_shot ships fired cell).ring_marks,
      ∀ t ∈ ships, p ∉ t.cells := by
  have hiff : ∀ t : Ship, t.hits ⊆ t.cells → (t.sunk = true ↔ t.cells ⊆ t.hits) := by
    intro t ht
    constructor
    · intro hsk
      have : t.cells = t.hits := by
        simpa [Ship.sunk] using hsk
      exact this ▸ Finset.Subset.refl _
    · intro hct
      simp [Ship.sunk, Finset.Subset.antisymm hct ht]
  have hdisj :
      List.Pairwise (fun u t => ∀ a ∈ u.cells, a ∉ t.cells) ships :=
    hok.2.imp (fun h a ha hat => (h a ha a hat).1 rfl)
  obtain ⟨ships', hhit⟩ :=
    hitFirst_of_mem (f := insert cell fired) hdisj hs hc
  have hsunk' : Ship.sunk ⟨s.cells, insert cell s.hits⟩ = true := by
    simp only [Ship.sunk, decide_eq_true_eq]
    exact Finset.Subset.antisymm hsunk
      (Finset.insert_subset_iff.mpr ⟨hc, hsub s hs⟩)
  rw [if_pos hsunk'] at hhit
  have ha : apply_shot ships fired cell =
      ⟨"hit", (ring_around s.cells).filter (fun p => p ∉ insert cell fired),
        ships', insert cell fired⟩ := by
    simp only [apply_shot, if_neg hnew, hhit]
  rw [ha]
  refine ⟨hiff, rfl, rfl, rfl, ?_⟩
  intro p hp t ht hptc
  simp only [Finset.mem_filter, mem_ring_around] at hp
  obtain ⟨⟨hpnotin, a, hacell, hpnb⟩, -⟩ := hp
  by_cases hts : s = t
  · exact hpnotin (hts ▸ hptc)
  · exact ((hok.2.forall ship_apart_symm hs ht hts) a hacell p hptc).2.2 hpnb

/-- Witness for `sinking_reveal_spec`: sinking the two-cell ship at
(0,0)-(0,1) with the final shot at (0,0). -/
theorem sinking_reveal_spec_witness :
    (∀ t : Ship, t.hits ⊆ t.cells → (t.sunk = true ↔ t.cells ⊆ t.hits)) ∧
    (apply_shot [⟨{((0 : Int), (0 : Int)), ((0 : Int), (1 : Int))},
        {((0 : Int), (1 : Int))}⟩] {((0 : Int), (1 : Int))}
        ((0 : Int), (0 : Int))).result = "hit" ∧
    (apply_shot [⟨{((0 : Int), (0 : Int)), ((0 : Int), (1 : Int))},
        {((0 : Int), (1 : Int))}⟩] {((0 : Int), (1 : Int))}
        ((0 : Int), (0 : Int))).ring_marks =
      (ring_around {((0 : Int), (0 : Int)), ((0 : Int), (1 : Int))}).filter
        (fun p => p ∉ insert ((0 : Int), (0 : Int))
          ({((0 : Int), (1 : Int))} : Finset Coord)) ∧
    (apply_shot [⟨{((0 : Int), (0 : Int)), ((0 : Int), (1 : Int))},
        {((0 : Int), (1 : Int))}⟩] {((0 : Int), (1 : Int))}
        ((0 : Int), (0 : Int))).fired =
      insert ((0 : Int), (0 : Int)) ({((0 : Int), (1 : Int))} : Finset Coord) ∧
    ∀ p ∈ (apply_shot [⟨{((0 : Int), (0 : Int)), ((0 : Int), (1 : Int))},
        {((0 : Int), (1 : Int))}⟩] {((0 : Int), (1 : Int))}
        ((0 : Int), (0 : Int))).ring_marks,
      ∀ t ∈ [(⟨{((0 : Int), (0 : Int)), ((0 : Int), (1 : Int))},
        {((0 : Int), (1 : Int))}⟩ : Ship)], p ∉ t.cells :=
  sinking_reveal_spec _ _ _
    ⟨{((0 : Int), (0 : Int)), ((0 : Int), (1 : Int))},
      {((0 : Int), (1 : Int))}⟩
    (by decide) (by decide) (by decide) (by decide) (by decide) (by decide)

/-- C5: when the player's fresh shot leaves the whole CPU fleet sunk, the
session moves to `over` with winner `player`, finalization runs (when not
already latched) and the latch is set, and the CPU does not fire: the
response carries no CPU shot and the CPU shot history and player fleet are
untouched. -/
theorem fire_player_victory (g : GameState) (row col : Int)
    (draws : List (Nat × Nat)) (elapsed : Int)
    (hp : g.phase = "play") (hb : in_bounds row col = true)
    (hnew : ((row, col) : Coord) ∉ g.player_fired)
    (hwin : all_sunk
      (apply_shot g.cpu_ships g.player_fired (row, col)).ships = true) :
    ∃ r : FireResult, fire g row col draws elapsed = some r ∧
      r.state.phase = "over" ∧
      r.state.stats_recorded = true ∧
      r.state.player_ships = g.player_ships ∧
      r.state.cpu_fired = g.cpu_fired ∧
      r.recorded =
        (if g.stats_recorded then none else some ("player", elapsed)) ∧
      ∃ res marks, r.response =
        .reply res marks none ∅ true (some "player") elapsed
          r.state.player_hits r.state.player_misses r.state.cpu_hits
          r.state.cpu_misses := by
  have h2 : g.over = false := by simp [GameState.over, hp]
  have hres :
      (apply_shot g.cpu_ships g.player_fired (row, col)).result ≠ "repeat" := by
    rcases (apply_shot_of_not_mem hnew).2 with h | h <;> rw [h] <;> decide
  refine ⟨⟨.reply (apply_shot g.cpu_ships g.player_fired (row, col)).result
      (apply_shot g.cpu_ships g.player_fired (row, col)).ring_marks
      none ∅ true (some "player") elapsed
      (if (apply_shot g.cpu_ships g.player_fired (row, col)).result = "hit"
        then g.player_hits + 1 else g.player_hits)
      (if (apply_shot g.cpu_ships g.player_fired (row, col)).result = "miss"
        then g.player_misses + 1 else g.player_misses)
      g.cpu_hits g.cpu_misses,
    ⟨"over", g.player_ships,
      (apply_shot g.cpu_ships g.player_fired (row, col)).ships,
      (apply_shot g.cpu_ships g.player_fired (row, col)).fired,
      g.cpu_fired,
      (if (apply_shot g.cpu_ships g.player_fired (row, col)).result = "hit"
        then g.player_hits + 1 else g.player_hits),
      (if (apply_shot g.cpu_ships g.player_fired (row, col)).result = "miss"
        then g.player_misses + 1 else g.player_misses),
      g.cpu_hits, g.cpu_misses, g.setup_index, true⟩,
    if g.stats_recorded then none else some ("player", elapsed)⟩,
    ?_, rfl, rfl, rfl, rfl, rfl,
    (apply_shot g.cpu_ships g.player_fired (row, col)).result,
    (apply_shot g.cpu_ships g.player_fired (row, col)).ring_marks, rfl⟩
  simp [fire, hp, h2, hb, hres, hwin]

/-- Witness for `fire_player_victory`: a play-phase session whose CPU fleet
is a single one-cell ship, fired at that cell. -/
theorem fire_player_victory_witness :
    ∃ r : FireResult,
      fire ⟨"play", [⟨{((5 : Int), (5 : Int))}, ∅⟩],
          [⟨{((0 : Int), (0 : Int))}, ∅⟩], ∅, ∅, 0, 0, 0, 0, 3, false⟩
        0 0 [] 4 = some r ∧
      r.state.phase = "over" ∧
      r.state.stats_recorded = true ∧
      r.state.player_ships = [⟨{((5 : Int), (5 : Int))}, ∅⟩] ∧
      r.state.cpu_fired = ∅ ∧
      r.recorded = (if false then none else some ("player", 4)) ∧
      ∃ res marks, r.response =
        .reply res marks none ∅ true (some "player") 4
          r.state.player_hits r.state.player_misses r.state.cpu_hits
          r.state.cpu_misses :=
  fire_player_victory _ 0 0 [] 4 rfl (by decide) (by decide) (by decide)

theorem pick_cpu_shot_append {fired : Finset Coord} {a b : Nat}
    (h : (((a : Int) % 10), ((b : Int) % 10)) ∉ fired) :
    ∀ ds : List (Nat × Nat),
      (pick_cpu_shot fired (ds ++ [(a, b)])).isSome = true
  | [] => by simp [pick_cpu_shot, h]
  | (x, y) :: ds => by
      by_cases hxy : (((x : Int) % 10), ((y : Int) % 10)) ∈ fired
      · simpa [pick_cpu_shot, hxy] using pick_cpu_shot_append h ds
      · simp [pick_cpu_shot, hxy]

/-- C10: in any state where `fire` reaches `pick_cpu_shot` — play phase,
player fleet not fully sunk, hit sets agreeing with the CPU shot history,
in-bounds fleet and history — the CPU's shot history is a proper subset of
the 100 board cells, so an unfired in-bounds coordinate exists, and the
selection loop returns as soon as the random stream produces one. -/
theorem pick_cpu_shot_terminates (g : GameState)
    (hbnd : ∀ s ∈ g.player_ships, ∀ p ∈ s.cells, in_bounds p.1 p.2 = true)
    (hrel : ∀ s ∈ g.player_ships, s.hits = s.cells ∩ g.cpu_fired)
    (hfb : g.cpu_fired ⊆ board_cells)
    (hns : all_sunk g.player_ships = false) :
    board_cells.card = 100 ∧
    g.cpu_fired ⊂ board_cells ∧
    ∃ p : Coord, in_bounds p.1 p.2 = true ∧ p ∉ g.cpu_fired ∧
      ∀ ds : List (Nat × Nat),
        (pick_cpu_shot g.cpu_fired
          (ds ++ [(p.1.toNat, p.2.toNat)])).isSome = true := by
  obtain ⟨s, hsm, hsunk⟩ : ∃ s ∈ g.player_ships, Ship.sunk s = false := by
    by_contra hcon
    push_neg at hcon
    have hall : all_sunk g.player_ships = true := by
      simp only [all_sunk, List.all_eq_true]
      intro t ht
      cases h' : Ship.sunk t with
      | false => exact absurd h' (hcon t ht)
      | true => rfl
    simp [hall] at hns
  have hne : s.cells ∩ g.cpu_fired ≠ s.cells := by
    intro heq
    have : s.cells = s.hits := by rw [hrel s hsm, heq]
    simp [Ship.sunk, this] at hsunk
  obtain ⟨p, hpc, hpni⟩ :=
    Finset.exists_of_ssubset
      (Finset.ssubset_iff_subset_ne.mpr ⟨Finset.inter_subset_left, hne⟩)
  have hpf : p ∉ g.cpu_fired := fun hf => hpni (Finset.mem_inter.mpr ⟨hpc, hf⟩)
  have hpb : in_bounds p.1 p.2 = true := hbnd s hsm p hpc
  refine ⟨by decide, ?_, p, hpb, hpf, ?_⟩
  · exact (Finset.ssubset_iff_of_subset hfb).mpr
      ⟨p, mem_board_cells.mpr hpb, hpf⟩
  · have hcast :
        (((((p.1.toNat : Int)) % 10), (((p.2.toNat : Int)) % 10))
          : Coord) = p := by
      have hb' := in_bounds_iff.mp hpb
      obtain ⟨a, b⟩ := p
      simp only [Prod.mk.injEq]
      constructor <;> omega
    intro ds
    exact pick_cpu_shot_append (by rw [hcast]; exact hpf) ds

/-! ### Generator lemmas -/

theorem candidate_cells_card (size : Nat) (d : PlaceDraw) :
    (candidate_cells size d).toFinset.card = size := by
  have key : ∀ f : Nat → Coord, Function.Injective f →
      ((List.range size).map f).toFinset.card = size := by
    intro f hf
    rw [List.toFinset_card_of_nodup (List.Nodup.map hf (List.nodup_range _))]
    simp
  obtain ⟨o, a, b⟩ := d
  cases o
  · exact key _ (fun i j h => by
      have h2 := (Prod.ext_iff.mp h).1
      omega)
  · exact key _ (fun i j h => by
      have h2 := (Prod.ext_iff.mp h).2
      omega)

theorem candidate_cells_in_bounds {size : Nat} (hsz : size ≤ 10)
    (d : PlaceDraw) : ∀ p ∈ candidate_cells size d,
      in_bounds p.1 p.2 = true := by
  intro p hp
  obtain ⟨o, a, b⟩ := d
  have h1 : a % 10 < 10 := Nat.mod_lt _ (by norm_num)
  have h2 : b % 10 < 10 := Nat.mod_lt _ (by norm_num)
  have h3 : a % (10 - size + 1) + size ≤ 10 := by
    have := Nat.mod_lt a (y := 10 - size + 1) (Nat.succ_pos _)
    omega
  have h4 : b % (10 - size + 1) + size ≤ 10 := by
    have := Nat.mod_lt b (y := 10 - size + 1) (Nat.succ_pos _)
    omega
  cases o <;>
    · simp only [candidate_cells, List.mem_map, List.mem_range] at hp
      obtain ⟨i, hi, rfl⟩ := hp
      rw [in_bounds_iff]
      dsimp only
      omega

theorem can_place_iff {occupied : Finset Coord} {cells : List Coord} :
    can_place occupied cells = true ↔
      ∀ p ∈ cells, p ∉ occupied ∧ ∀ nb ∈ neighbors8 p, nb ∉ occupied := by
  simp [can_place, List.all_eq_true]

theorem try_place_some {occupied : Finset Coord} {size : Nat} :
    ∀ (fuel : Nat) (ds : List PlaceDraw) {cells : List Coord}
      {ds' : List PlaceDraw},
      try_place occupied size fuel ds = some (cells, ds') →
      can_place occupied cells = true ∧ ∃ d, cells = candidate_cells size d
  | 0, _, _, _, h => by simp [try_place] at h
  | _ + 1, [], _, _, h => by simp [try_place] at h
  | fuel + 1, d :: ds, cells, ds', h => by
      by_cases hcp : can_place occupied (candidate_cells size d) = true
      · simp only [try_place, hcp, if_true, Option.some.injEq,
          Prod.mk.injEq] at h
        obtain ⟨rfl, -⟩ := h
        exact ⟨hcp, d, rfl⟩
      · simp only [try_place, hcp, if_false] at h
        exact try_place_some fuel ds h

/-- Appending a validated ship preserves the fleet invariant. -/
theorem fleet_ok_snoc {ships : List Ship} {cells : List Coord}
    {occupied : Finset Coord} (hok : fleet_ok ships)
    (hocc : ∀ p, p ∈ occupied ↔ ∃ s ∈ ships, p ∈ s.cells)
    (hbd : ∀ p ∈ cells, in_bounds p.1 p.2 = true)
    (hcp : ∀ p ∈ cells, p ∉ occupied ∧ ∀ nb ∈ neighbors8 p, nb ∉ occupied) :
    fleet_ok (ships ++ [⟨cells.toFinset, ∅⟩]) := by
  constructor
  · intro s hs p hp
    rcases List.mem_append.mp hs with h | h
    · exact hok.1 s h p hp
    · have hse : s = ⟨cells.toFinset, ∅⟩ := by simpa using h
      subst hse
      exact hbd p (List.mem_toFinset.mp hp)
  · rw [List.pairwise_append]
    refine ⟨hok.2, List.pairwise_singleton _ _, ?_⟩
    intro s hs t ht
    have hte : t = ⟨cells.toFinset, ∅⟩ := by simpa using ht
    subst hte
    intro a ha b hb
    have hbl : b ∈ cells := List.mem_toFinset.mp hb
    have haocc : a ∈ occupied := (hocc a).mpr ⟨s, hs, ha⟩
    obtain ⟨hbocc, hnb⟩ := hcp b hbl
    refine ⟨?_, ?_, ?_⟩
    · rintro rfl; exact hbocc haocc
    · intro hanb; exact hnb a hanb haocc
    · intro hban
      have hain : in_bounds a.1 a.2 = true := hok.1 s hs a ha
      exact hnb a (neighbors8_swap hain hban) haocc

/-- The outer placement loop preserves the fleet invariant and appends
ships whose sizes follow `sizes` in order. -/
theorem place_loop_spec :
    ∀ (sizes : List Nat) (occupied : Finset Coord) (ships : List Ship)
      (ds : List PlaceDraw) (out : List Ship),
      (∀ n ∈ sizes, n ≤ 10) →
      fleet_ok ships →
      (∀ p, p ∈ occupied ↔ ∃ s ∈ ships, p ∈ s.cells) →
      place_loop sizes occupied ships ds = some out →
      fleet_ok out ∧
        out.map (fun s => s.cells.card) =
          ships.map (fun s => s.cells.card) ++ sizes
  | [], occupied, ships, ds, out, _, hok, _, h => by
      simp only [place_loop, Option.some.injEq] at h
      subst h
      simp [hok]
  | size :: rest, occupied, ships, ds, out, hsz, hok, hocc, h => by
      cases htp : try_place occupied size 4000 ds with
      | none => simp [place_loop, htp] at h
      | some pr =>
          obtain ⟨cells, ds'⟩ := pr
          simp only [place_loop, htp] at h
          obtain ⟨hcp, d, hcand⟩ := try_place_some 4000 ds htp
          have hbd : ∀ p ∈ cells, in_bounds p.1 p.2 = true := by
            rw [hcand]
            exact candidate_cells_in_bounds (hsz size (by simp)) d
          have hok' := fleet_ok_snoc hok hocc hbd (can_place_iff.mp hcp)
          have hocc' : ∀ p, p ∈ occupied ∪ cells.toFinset ↔
              ∃ s ∈ ships ++ [(⟨cells.toFinset, ∅⟩ : Ship)], p ∈ s.cells := by
            intro p
            simp only [Finset.mem_union, hocc p, List.mem_append,
              List.mem_singleton]
            constructor
            · rintro (⟨s, hs, hp⟩ | hp)
              · exact ⟨s, Or.inl hs, hp⟩
              · exact ⟨⟨cells.toFinset, ∅⟩, Or.inr rfl, hp⟩
            · rintro ⟨s, hs | rfl, hp⟩
              · exact Or.inl ⟨s, hs, hp⟩
              · exact Or.inr hp
          obtain ⟨hfin, hmap⟩ :=
            place_loop_spec rest _ _ ds' out
              (fun n hn => hsz n (by simp [hn])) hok' hocc' h
          refine ⟨hfin, ?_⟩
          rw [hmap, List.map_append]
          have hcard : (⟨cells.toFinset, ∅⟩ : Ship).cells.card = size := by
            rw [hcand]
            exact candidate_cells_card size d
          simp [hcard]

theorem mem_foldl_union {p : Coord} :
    ∀ (ships : List Ship) (init : Finset Coord),
      p ∈ ships.foldl (fun acc s => acc ∪ s.cells) init ↔
        p ∈ init ∨ ∃ s ∈ ships, p ∈ s.cells
  | [], init => by simp
  | s :: rest, init => by
      rw [List.foldl_cons, mem_foldl_union rest]
      simp only [Finset.mem_union, List.mem_cons]
      constructor
      · rintro ((h | h) | ⟨t, ht, hp⟩)
        · exact Or.inl h
        · exact Or.inr ⟨s, Or.inl rfl, h⟩
        · exact Or.inr ⟨t, Or.inr ht, hp⟩
      · rintro (h | ⟨t, rfl | ht, hp⟩)
        · exact Or.inl (Or.inl h)
        · exact Or.inl (Or.inr hp)
        · exact Or.inr ⟨t, ht, hp⟩

theorem can_place_player_ship_iff {ships : List Ship} {cells : List Coord} :
    can_place_player_ship ships cells = true ↔
      ∀ p ∈ cells, in_bounds p.1 p.2 = true ∧
        (∀ s ∈ ships, p ∉ s.cells) ∧
        ∀ nb ∈ neighbors8 p, ∀ s ∈ ships, nb ∉ s.cells := by
  simp only [can_place_player_ship, List.all_eq_true, Bool.and_eq_true,
    Bool.not_eq_true', decide_eq_false_iff_not, mem_foldl_union,
    Finset.not_mem_empty, false_or, not_exists]
  constructor
  · intro h p hp
    obtain ⟨⟨hb, hocc⟩, hnb⟩ := h p hp
    exact ⟨hb, fun s hs hpc => hocc s ⟨hs, hpc⟩,
      fun nb hnb' s hs hnc => hnb nb hnb' s ⟨hs, hnc⟩⟩
  · intro h p hp
    obtain ⟨hb, hocc, hnb⟩ := h p hp
    exact ⟨⟨hb, fun s ⟨hs, hpc⟩ => hocc s hs hpc⟩,
      fun nb hnb' s ⟨hs, hnc⟩ => hnb nb hnb' s hs hnc⟩

/-- C4: every fleet the random generator returns, and every player fleet
extended only through placements accepted by `can_place_player_ship`,
satisfies the invariant: no shared cells, no 8-adjacent cells across ships,
all ship cells within the 10×10 board. -/
theorem fleet_invariant_holds :
    (∀ (sizes : List Nat) (ds : List PlaceDraw) (ships : List Ship),
        (∀ n ∈ sizes, n ≤ 10) →
        random_place_ships_no_adjacent sizes ds = some ships →
        fleet_ok ships) ∧
    (∀ (ships : List Ship) (cells : List Coord),
        fleet_ok ships → can_place_player_ship ships cells = true →
        fleet_ok (ships ++ [⟨cells.toFinset, ∅⟩])) := by
  constructor
  · intro sizes ds ships hsz h
    exact (place_loop_spec sizes ∅ [] ds ships hsz
      ⟨by simp, List.Pairwise.nil⟩ (by simp) h).1
  · intro ships cells hok hcp
    rw [can_place_player_ship_iff] at hcp
    have hocc : ∀ p : Coord,
        p ∈ ships.foldl (fun acc s => acc ∪ s.cells) ∅ ↔
          ∃ s ∈ ships, p ∈ s.cells := by
      intro p
      rw [mem_foldl_union]
      simp
    refine fleet_ok_snoc hok hocc ?_ ?_
    · exact fun p hp => (hcp p hp).1
    · intro p hp
      obtain ⟨-, hocc, hnb⟩ := hcp p hp
      constructor
      · rw [mem_foldl_union]
        simp only [Finset.not_mem_empty, false_or, not_exists]
        rintro s ⟨hs, hc⟩
        exact hocc s hs hc
      · intro nb hnb'
        rw [mem_foldl_union]
        simp only [Finset.not_mem_empty, false_or, not_exists]
        rintro s ⟨hs, hc⟩
        exact hnb nb hnb' s hs hc

/-- Witness for `fleet_invariant_holds`: a concrete generated 2/3/5 fleet
and a concrete accepted player placement. -/
theorem fleet_invariant_holds_witness :
    fleet_ok [⟨{((0 : Int), (0 : Int)), ((0 : Int), (1 : Int))}, ∅⟩,
      ⟨{((2 : Int), (0 : Int)), ((2 : Int), (1 : Int)),
        ((2 : Int), (2 : Int))}, ∅⟩,
      ⟨{((4 : Int), (0 : Int)), ((4 : Int), (1 : Int)),
        ((4 : Int), (2 : Int)), ((4 : Int), (3 : Int)),
        ((4 : Int), (4 : Int))}, ∅⟩] ∧
    fleet_ok ([⟨{((0 : Int), (0 : Int))}, ∅⟩] ++
      [⟨([((5 : Int), (5 : Int))] : List Coord).toFinset, ∅⟩]) :=
  ⟨fleet_invariant_holds.1 SHIP_SIZES
      [(true, 0, 0), (true, 2, 0), (true, 4, 0)] _ (by decide) (by decide),
    fleet_invariant_holds.2 [⟨{((0 : Int), (0 : Int))}, ∅⟩]
      [((5 : Int), (5 : Int))] (by decide) (by decide)⟩

/-- C6 counterexample: `new_game` hands the generator `SHIP_SIZES = [2, 3,
5]`, not the setup order `[5, 3, 2]`; on a concrete draw sequence the
generated fleet's sizes come out `[2, 3, 5]`, smallest first, refuting the
claimed largest-first `5, 3, 2` iteration. -/
theorem generator_order_counterexample :
    SETUP_ORDER = [5, 3, 2] ∧
    SHIP_SIZES = [2, 3, 5] ∧
    SHIP_SIZES ≠ SETUP_ORDER ∧
    ∃ ships,
      random_place_ships_no_adjacent SHIP_SIZES
        [(true, 0, 0), (true, 2, 0), (true, 4, 0)] = some ships ∧
      ships.map (fun s => s.cells.card) = [2, 3, 5] ∧
      ships.map (fun s => s.cells.card) ≠ [5, 3, 2] := by
  refine ⟨rfl, rfl, by decide,
    [⟨{((0 : Int), (0 : Int)), ((0 : Int), (1 : Int))}, ∅⟩,
      ⟨{((2 : Int), (0 : Int)), ((2 : Int), (1 : Int)),
        ((2 : Int), (2 : Int))}, ∅⟩,
      ⟨{((4 : Int), (0 : Int)), ((4 : Int), (1 : Int)),
        ((4 : Int), (2 : Int)), ((4 : Int), (3 : Int)),
        ((4 : Int), (4 : Int))}, ∅⟩],
    by decide, by decide, by decide⟩

/-- C6 amended: the generator used at session creation iterates the sizes
in the order it is given — `SHIP_SIZES = [2, 3, 5]`, smallest first — and
for each size accepts the first random draw whose candidate passes the
validator: a returned fleet's ship sizes equal `sizes` elementwise in
order, and a passing first draw is taken immediately, leaving the
remaining draws for the next sizes. -/
theorem generator_size_order :
    (∀ (sizes : List Nat) (ds : List PlaceDraw) (ships : List Ship),
        (∀ n ∈ sizes, n ≤ 10) →
        random_place_ships_no_adjacent sizes ds = some ships →
        ships.map (fun s => s.cells.card) = sizes) ∧
    (∀ (occupied : Finset Coord) (size fuel : Nat) (d : PlaceDraw)
        (ds : List PlaceDraw),
        can_place occupied (candidate_cells size d) = true →
        try_place occupied size (fuel + 1) (d :: ds) =
          some (candidate_cells size d, ds)) := by
  constructor
  · intro sizes ds ships hsz h
    exact (place_loop_spec sizes ∅ [] ds ships hsz
      ⟨by simp, List.Pairwise.nil⟩ (by simp) h).2
  · intro occupied size fuel d ds h
    simp [try_place, h]

/-- Witness for `generator_size_order` at a concrete draw sequence. -/
theorem generator_size_order_witness :
    ([⟨{((0 : Int), (0 : Int)), ((0 : Int), (1 : Int))}, ∅⟩,
      ⟨{((2 : Int), (0 : Int)), ((2 : Int), (1 : Int)),
        ((2 : Int), (2 : Int))}, ∅⟩,
      ⟨{((4 : Int), (0 : Int)), ((4 : Int), (1 : Int)),
        ((4 : Int), (2 : Int)), ((4 : Int), (3 : Int)),
        ((4 : Int), (4 : Int))}, ∅⟩] : List Ship).map
        (fun s => s.cells.card) = SHIP_SIZES ∧
    try_place (∅ : Finset Coord) 2 4000 [(true, 0, 0)] =
      some (candidate_cells 2 (true, 0, 0), []) :=
  ⟨generator_size_order.1 SHIP_SIZES
      [(true, 0, 0), (true, 2, 0), (true, 4, 0)] _ (by decide) (by decide),
    generator_size_order.2 ∅ 2 3999 (true, 0, 0) [] (by decide)⟩

/-- C8 counterexample: a parsed file whose `fastest_win_seconds` is present
but neither null nor an int (e.g. a string) does not keep the stored value:
the type-sanity step of `load_scoreboard` (line 54-55) resets it to the
default `None`.  So "present fields are kept" fails as stated. -/
theorem load_scoreboard_present_not_kept :
    (fun f => if f = SBField.fastest_win_seconds then some JVal.jother
              else none) SBField.fastest_win_seconds = some JVal.jother ∧
    load_scoreboard (.parsed (fun f =>
        if f = SBField.fastest_win_seconds then some JVal.jother else none))
      SBField.fastest_win_seconds = JVal.jnull ∧
    JVal.jnull ≠ JVal.jother := by
  exact ⟨rfl, by decide, by decide⟩

/-- C8 amended: loading never fails — a missing or unparseable file yields
the all-default scoreboard, a parsed file has each missing field filled
from the default field-by-field and each present field kept, except that a
present `fastest_win_seconds` that is neither null nor an integer is reset
to the default `None` by the type-sanity check. -/
theorem load_scoreboard_merge :
    (∀ f, load_scoreboard .missing f = default_scoreboard_json f) ∧
    (∀ f, load_scoreboard .unparseable f = default_scoreboard_json f) ∧
    (∀ (d : SBField → Option JVal) (f : SBField), d f = none →
        load_scoreboard (.parsed d) f = default_scoreboard_json f) ∧
    (∀ (d : SBField → Option JVal) (f : SBField) (v : JVal), d f = some v →
        f ≠ .fastest_win_seconds → load_scoreboard (.parsed d) f = v) ∧
    (∀ (d : SBField → Option JVal) (n : Int),
        d .fastest_win_seconds = some (.jint n) →
        load_scoreboard (.parsed d) .fastest_win_seconds = .jint n) ∧
    (∀ d : SBField → Option JVal, d .fastest_win_seconds = some .jnull →
        load_scoreboard (.parsed d) .fastest_win_seconds = .jnull) ∧
    (∀ d : SBField → Option JVal, d .fastest_win_seconds = some .jother →
        load_scoreboard (.parsed d) .fastest_win_seconds = .jnull) := by
  refine ⟨fun f => rfl, fun f => rfl, ?_, ?_, ?_, ?_, ?_⟩
  · intro d f h
    by_cases hf : f = SBField.fastest_win_seconds
    · subst hf
      simp [load_scoreboard, h, default_scoreboard_json]
    · simp [load_scoreboard, h, hf]
  · intro d f v h hf
    simp [load_scoreboard, h, hf]
  · intro d n h
    simp [load_scoreboard, h]
  · intro d h
    simp [load_scoreboard, h]
  · intro d h
    simp [load_scoreboard, h]

/-- Witness for `load_scoreboard_merge` at concrete stored files. -/
theorem load_scoreboard_merge_witness :
    load_scoreboard .missing SBField.wins =
      default_scoreboard_json SBField.wins ∧
    load_scoreboard .unparseable SBField.wins =
      default_scoreboard_json SBField.wins ∧
    load_scoreboard (.parsed (fun _ => none)) SBField.losses =
      default_scoreboard_json SBField.losses ∧
    load_scoreboard (.parsed (fun _ => some (JVal.jint 7)))
      SBField.games_played = JVal.jint 7 ∧
    load_scoreboard (.parsed (fun _ => some (JVal.jint 7)))
      SBField.fastest_win_seconds = JVal.jint 7 ∧
    load_scoreboard (.parsed (fun _ => some JVal.jnull))
      SBField.fastest_win_seconds = JVal.jnull ∧
    load_scoreboard (.parsed (fun _ => some JVal.jother))
      SBField.fastest_win_seconds = JVal.jnull :=
  ⟨load_scoreboard_merge.1 SBField.wins,
    load_scoreboard_merge.2.1 SBField.wins,
    load_scoreboard_merge.2.2.1 _ SBField.losses rfl,
    load_scoreboard_merge.2.2.2.1 _ SBField.games_played _ rfl (by decide),
    load_scoreboard_merge.2.2.2.2.1 _ 7 rfl,
    load_scoreboard_merge.2.2.2.2.2.1 _ rfl,
    load_scoreboard_merge.2.2.2.2.2.2 _ rfl⟩

/-- Witness for `apply_shot_monotonic` at a concrete fleet and shot. -/
theorem apply_shot_monotonic_witness :
    (∅ : Finset Coord) ⊆
      (apply_shot [⟨{((0 : Int), (0 : Int))}, ∅⟩] ∅
        ((0 : Int), (0 : Int))).fired :=
  (apply_shot_monotonic [⟨{((0 : Int), (0 : Int))}, ∅⟩] ∅
    ((0 : Int), (0 : Int)) (by decide)).1

/-- Witness for `pick_cpu_shot_terminates`: a fresh play-phase session with
one unhit player ship and an empty CPU history. -/
theorem pick_cpu_shot_terminates_witness :
    board_cells.card = 100 ∧
    (∅ : Finset Coord) ⊂ board_cells ∧
    ∃ p : Coord, in_bounds p.1 p.2 = true ∧ p ∉ (∅ : Finset Coord) ∧
      ∀ ds : List (Nat × Nat),
        (pick_cpu_shot ∅ (ds ++ [(p.1.toNat, p.2.toNat)])).isSome = true :=
  pick_cpu_shot_terminates
    ⟨"play", [⟨{((0 : Int), (0 : Int))}, ∅⟩], [], ∅, ∅, 0, 0, 0, 0, 3, false⟩
    (by decide) (by decide) (by decide) (by decide)

end Battleship
